import Mathlib

/-!
Verification of the report decoder and chord-emission state machine of the
`plover-machine-hid` plugin (`plover_machine_hid.py`), shallowly embedded
in Lean 4.

Python machine integers in the model: bitmaps are `Nat` (Python `int` is
unbounded and the decoded bitmap is non-negative); `keystate & ~current`
on non-negative Python ints equals `Nat.ldiff keystate current`;
`keystate | current` equals `Nat.lor`; truthiness of a bitmap is `≠ 0`.
-/

namespace PloverHid

/-- `int.from_bytes(bs, 'big')` for a list of byte values. -/
def intFromBytesBE (bs : List Nat) : Nat :=
  bs.foldl (fun acc b => acc * 256 + b) 0

/-- `N_LEVERS: int = 64` -/
def N_LEVERS : Nat := 64

/-- `SIMPLE_REPORT_LEN: int = N_LEVERS // 8` -/
def SIMPLE_REPORT_LEN : Nat := N_LEVERS / 8

/-- `STENO_KEY_CHART`, the tuple of key names, in source order. -/
def STENO_KEY_CHART : List String :=
  ["S-", "T-", "K-", "P-", "W-", "H-",
   "R-", "A-", "O-", "*", "-E", "-U",
   "-F", "-R", "-P", "-B", "-L", "-G",
   "-T", "-S", "-D", "-Z", "#",
   "X1", "X2", "X3", "X4", "X5", "X6",
   "X7", "X8", "X9", "X10", "X11", "X12",
   "X13", "X14", "X15", "X16", "X17", "X18",
   "X19", "X20", "X21", "X22", "X23", "X24",
   "X25", "X26", "X27", "X28", "X29", "X30",
   "X31", "X32", "X33", "X34", "X35", "X36",
   "X37", "X38", "X39", "X40", "X41"]

/-- Python `a & ~b` on non-negative unbounded ints: the bits of `a` with the
bits of `b` cleared. Since `a &&& b` keeps a subset of the bits of `a`,
this equals `a ^^^ (a &&& b)`; the form with `^^^` is used because the
kernel evaluates it. `andNot_eq_ldiff` below checks it against
`Nat.ldiff`, the textbook and-not. -/
def andNot (a b : Nat) : Nat := a ^^^ (a &&& b)

namespace HidMachine

/-- `HidMachine._parse(report)`: accept iff `len(report) > SIMPLE_REPORT_LEN`
and `report[0] == 0x50`, returning `int.from_bytes(report[1:9], 'big')`;
otherwise `raise InvalidReport()` (modelled as `none`). -/
def _parse (report : List Nat) : Option Nat :=
  if SIMPLE_REPORT_LEN < report.length ∧ report.head? = some 0x50 then
    some (intFromBytesBE ((report.drop 1).take SIMPLE_REPORT_LEN))
  else
    none

/-- The key-name list computed inside `HidMachine.send`:
`[key for i, key in enumerate(STENO_KEY_CHART) if keystate >> (63 - i) & 1]`. -/
def sendKeys (keystate : Nat) : List String :=
  (STENO_KEY_CHART.enum.filter
    (fun ik => (keystate >>> (63 - ik.1)) &&& 1 == 1)).map Prod.snd

/-- `HidMachine.send(keystate)`. The translator `self.keymap.keys_to_actions`
is an external collaborator, passed as a parameter; Python's
`if steno_actions:` is falsy on `None` and on an empty action list, so the
value forwarded to `self._notify` is modelled as an `Option`: `none` means
no output was forwarded. -/
def send {A : Type} (keys_to_actions : List String → Option (List A))
    (keystate : Nat) : Option (List A) :=
  match keys_to_actions (sendKeys keystate) with
  | some acts => if acts.isEmpty then none else some acts
  | none => none

end HidMachine

/-- The four options read by `HidMachine.run` from `self._params`
(declared in `HidMachine.get_option_info`). -/
structure MachineParams where
  first_up_chord_send : Bool
  double_tap_repeat : Bool
  repeat_delay_ms : Nat
  repeat_interval_ms : Nat

/-- The five local variables of `HidMachine.run`'s loop. -/
structure MachineState where
  keystate : Nat
  current : Nat
  last_sent : Nat
  repeat_timer : Nat
  sent_first_up : Bool
deriving DecidableEq

/-- The initialisation at the top of `HidMachine.run`. -/
def initState : MachineState :=
  { keystate := 0, current := 0, last_sent := 0, repeat_timer := 0,
    sent_first_up := false }

/-- One loop iteration of `HidMachine.run` in which `self._hid.read` timed
out (`if not report:`). Returns the new state and the list of bitmaps
passed to `self.send`, in order. -/
def stepTimeout (p : MachineParams) (s : MachineState) :
    MachineState × List Nat :=
  if p.double_tap_repeat = true ∧ s.current ≠ 0 ∧ s.current = s.last_sent then
    if s.repeat_timer < p.repeat_delay_ms then
      ({ s with repeat_timer := s.repeat_timer + p.repeat_interval_ms }, [])
    else
      ({ s with sent_first_up := true }, [s.current])
  else
    (s, [])

/-- The part of a `HidMachine.run` loop iteration after a report was
successfully parsed into the bitmap `cur`: `current = cur`,
`repeat_timer = 0`, then the policy selected by `first_up_chord_send`.
Returns the new state and the list of bitmaps passed to `self.send`. -/
def stepBitmap (p : MachineParams) (s : MachineState) (cur : Nat) :
    MachineState × List Nat :=
  let s1 : MachineState := { s with current := cur, repeat_timer := 0 }
  if p.first_up_chord_send = true then
    let r2 :=
      if andNot s1.keystate cur ≠ 0 ∧ s1.sent_first_up = false then
        ({ s1 with last_sent := s1.keystate, sent_first_up := true },
         [s1.keystate])
      else (s1, [])
    let s3 :=
      if andNot cur r2.1.keystate ≠ 0 then
        { r2.1 with sent_first_up := false }
      else r2.1
    ({ s3 with keystate := cur }, r2.2)
  else
    let ks := s1.keystate ||| cur
    if cur = 0 then
      ({ s1 with keystate := 0, last_sent := ks }, [ks])
    else
      ({ s1 with keystate := ks }, [])

/-- One observable event of the read loop: a read timeout, or a raw report
of bytes delivered by `self._hid.read`. -/
inductive Event where
  | timeout : Event
  | report : List Nat → Event

/-- One full loop iteration of `HidMachine.run` on one event. A report
that `_parse` rejects is skipped by the `except InvalidReport: continue`
handler before `current` or `repeat_timer` is assigned, so the state is
returned unchanged and nothing is sent. -/
def step (p : MachineParams) (s : MachineState) : Event → MachineState × List Nat
  | Event.timeout => stepTimeout p s
  | Event.report bytes =>
    match HidMachine._parse bytes with
    | none => (s, [])
    | some cur => stepBitmap p s cur

/-- Run the loop over a list of events, collecting every bitmap passed to
`self.send` in order. -/
def runEvents (p : MachineParams) (s : MachineState) :
    List Event → MachineState × List Nat
  | [] => (s, [])
  | e :: es =>
    let r1 := step p s e
    let r2 := runEvents p r1.1 es
    (r2.1, r1.2 ++ r2.2)

/-- Run the loop over a list of already-decoded bitmaps (one valid report
per element), collecting every bitmap passed to `self.send` in order. -/
def runBitmaps (p : MachineParams) (s : MachineState) :
    List Nat → MachineState × List Nat
  | [] => (s, [])
  | b :: bs =>
    let r1 := stepBitmap p s b
    let r2 := runBitmaps p r1.1 bs
    (r2.1, r1.2 ++ r2.2)

/-- The default options from `HidMachine.get_option_info`. -/
def defaultParams : MachineParams :=
  { first_up_chord_send := false, double_tap_repeat := false,
    repeat_delay_ms := 200, repeat_interval_ms := 50 }

/-- The repeat-policy test configuration: `double_tap_repeat` on,
`repeat_delay_ms = 100`, `repeat_interval_ms = 50`. -/
def repeatTestParams : MachineParams :=
  { first_up_chord_send := false, double_tap_repeat := true,
    repeat_delay_ms := 100, repeat_interval_ms := 50 }

/-- The loop state while a chord `C` that was just emitted is still held
unchanged: `current = last_sent = C`, repeat timer cleared by the report
that produced this state. -/
def heldState (C : Nat) : MachineState :=
  { keystate := C, current := C, last_sent := C, repeat_timer := 0,
    sent_first_up := false }

/- ------------------------------------------------------------------ -/
/- Helper lemmas                                                      -/
/- ------------------------------------------------------------------ -/

/-- `andNot` agrees with `Nat.ldiff`, the textbook bitwise and-not. -/
theorem andNot_eq_ldiff (a b : Nat) : andNot a b = Nat.ldiff a b := by
  apply Nat.eq_of_testBit_eq
  intro i
  simp only [andNot, Nat.testBit_xor, Nat.testBit_and, Nat.testBit_ldiff]
  cases a.testBit i <;> cases b.testBit i <;> rfl

/-- A timeout while the held bitmap differs from the last emitted chord
changes nothing and sends nothing. -/
theorem stepTimeout_of_ne (p : MachineParams) (s : MachineState)
    (h : s.current ≠ s.last_sent) : stepTimeout p s = (s, []) := by
  simp [stepTimeout, h]

/-- Any number of timeouts while the held bitmap differs from the last
emitted chord changes nothing and sends nothing. -/
theorem runEvents_timeout_of_ne (p : MachineParams) (s : MachineState)
    (h : s.current ≠ s.last_sent) (n : Nat) :
    runEvents p s (List.replicate n Event.timeout) = (s, []) := by
  induction n with
  | zero => simp [runEvents]
  | succ n ih =>
    simp [List.replicate_succ, runEvents, step, stepTimeout_of_ne p s h, ih]

/-- A report step reads only `first_up_chord_send` from the options. -/
theorem stepBitmap_congr (p q : MachineParams)
    (h : p.first_up_chord_send = q.first_up_chord_send) (s : MachineState)
    (b : Nat) : stepBitmap p s b = stepBitmap q s b := by
  simp only [stepBitmap, h]

/-- A run over reports reads only `first_up_chord_send` from the
options. -/
theorem runBitmaps_congr (p q : MachineParams)
    (h : p.first_up_chord_send = q.first_up_chord_send) (s : MachineState)
    (bs : List Nat) : runBitmaps p s bs = runBitmaps q s bs := by
  induction bs generalizing s with
  | nil => rfl
  | cons b bs ih => simp only [runBitmaps, stepBitmap_congr p q h, ih]

/-- Once the repeat timer has reached the delay while a nonzero chord is
held unchanged (`current = last_sent`), every further timeout under
`repeatTestParams` re-emits the held chord. -/
theorem runEvents_repeat_steady (s : MachineState) (n : Nat)
    (h0 : s.current ≠ 0) (h1 : s.current = s.last_sent)
    (h2 : repeatTestParams.repeat_delay_ms ≤ s.repeat_timer) :
    (runEvents repeatTestParams s (List.replicate n Event.timeout)).2 =
      List.replicate n s.current := by
  induction n generalizing s with
  | zero => simp [runEvents]
  | succ n ih =>
    have hstep : stepTimeout repeatTestParams s =
        ({ s with sent_first_up := true }, [s.current]) := by
      rw [stepTimeout, if_pos ⟨rfl, h0, h1⟩, if_neg (Nat.not_lt.mpr h2)]
    have hrec := ih { s with sent_first_up := true } h0 h1 h2
    simp [List.replicate_succ, runEvents, step, hstep, hrec]

/-- Splitting `runEvents` across an append of event lists. -/
theorem runEvents_append (p : MachineParams) (s : MachineState)
    (l1 l2 : List Event) :
    runEvents p s (l1 ++ l2) =
      ((runEvents p (runEvents p s l1).1 l2).1,
       (runEvents p s l1).2 ++ (runEvents p (runEvents p s l1).1 l2).2) := by
  induction l1 generalizing s with
  | nil => simp [runEvents]
  | cons e es ih => simp [runEvents, ih]

/-- For byte values, `intFromBytesBE` stays below `256 ^ length`. -/
theorem intFromBytesBE_lt (bs : List Nat) (acc : Nat)
    (h : ∀ b ∈ bs, b < 256) :
    bs.foldl (fun acc b => acc * 256 + b) acc < (acc + 1) * 256 ^ bs.length := by
  induction bs generalizing acc with
  | nil =>
    simp only [List.foldl, List.length_nil, Nat.pow_zero, Nat.mul_one]
    omega
  | cons b bs ih =>
    have hb : b < 256 := h b (List.mem_cons_self b bs)
    have hrec := ih (acc * 256 + b) (fun x hx => h x (List.mem_cons_of_mem b hx))
    calc (b :: bs).foldl (fun acc b => acc * 256 + b) acc
        = bs.foldl (fun acc b => acc * 256 + b) (acc * 256 + b) := by
          simp [List.foldl]
      _ < (acc * 256 + b + 1) * 256 ^ bs.length := hrec
      _ ≤ (acc + 1) * 256 ^ (b :: bs).length := by
          have h1 : acc * 256 + b + 1 ≤ (acc + 1) * 256 := by omega
          have h2 : ((acc + 1) : Nat) * 256 ^ (b :: bs).length
              = ((acc + 1) * 256) * 256 ^ bs.length := by
            simp [List.length_cons, Nat.pow_succ]
            ring
          rw [h2]
          exact Nat.mul_le_mul_right _ h1

/- ------------------------------------------------------------------ -/
/- Claim theorems                                                     -/
/- ------------------------------------------------------------------ -/

/-- C4: `_parse` rejects a report iff it is 8 bytes or shorter or its
first byte is not `0x50`; on acceptance it returns bytes 1..8 read as an
unsigned big-endian integer (byte 1 is the most significant byte), a
value below `2 ^ 64` whenever the input entries are byte values. -/
theorem c4_report_decoder_contract (r : List Nat) :
    (HidMachine._parse r = none ↔ r.length ≤ 8 ∨ r.head? ≠ some 0x50)
    ∧ (∀ v, HidMachine._parse r = some v →
        v = r.getD 1 0 * 2 ^ 56 + r.getD 2 0 * 2 ^ 48 + r.getD 3 0 * 2 ^ 40 +
            r.getD 4 0 * 2 ^ 32 + r.getD 5 0 * 2 ^ 24 + r.getD 6 0 * 2 ^ 16 +
            r.getD 7 0 * 2 ^ 8 + r.getD 8 0)
    ∧ ((∀ b ∈ r, b < 256) → ∀ v, HidMachine._parse r = some v → v < 2 ^ 64) := by
  have hlen : SIMPLE_REPORT_LEN = 8 := rfl
  refine ⟨?_, ?_, ?_⟩
  · rw [HidMachine._parse, hlen]
    split
    next h =>
      simp only [reduceCtorEq, false_iff]
      push_neg
      exact ⟨by omega, h.2⟩
    next h =>
      simp only [true_iff]
      by_contra hc
      push_neg at hc
      exact h ⟨by omega, hc.2⟩
  · intro v hv
    rw [HidMachine._parse, hlen] at hv
    split at hv
    next hcond =>
      rcases r with _ | ⟨b0, _ | ⟨b1, _ | ⟨b2, _ | ⟨b3, _ | ⟨b4, _ | ⟨b5,
        _ | ⟨b6, _ | ⟨b7, _ | ⟨b8, rest⟩⟩⟩⟩⟩⟩⟩⟩⟩ <;>
        (simp_all [intFromBytesBE, List.getD]; try omega)
    next => exact Option.noConfusion hv
  · intro hb v hv
    rw [HidMachine._parse, hlen] at hv
    split at hv
    next hcond =>
      injection hv with hv
      subst hv
      have htl : ∀ b ∈ (r.drop 1).take 8, b < 256 := by
        intro b hmem
        exact hb b (List.mem_of_mem_drop (List.mem_of_mem_take hmem))
      have hlt := intFromBytesBE_lt ((r.drop 1).take 8) 0 htl
      have hlen8 : ((r.drop 1).take 8).length ≤ 8 := by
        simp [List.length_take]
      calc intFromBytesBE ((r.drop 1).take 8)
          < (0 + 1) * 256 ^ ((r.drop 1).take 8).length := hlt
        _ ≤ 256 ^ 8 := by
            simpa using Nat.pow_le_pow_right (by norm_num) hlen8
        _ = 2 ^ 64 := by norm_num
    next => exact Option.noConfusion hv

/-- C4 witness: the contract evaluated at the concrete accepted report
`[0x50, 1, 0, 0, 0, 0, 0, 0, 2, 99]`. -/
theorem c4_report_decoder_contract_witness :
    (72057594037927938 : Nat) =
      [0x50, 1, 0, 0, 0, 0, 0, 0, 2, 99].getD 1 0 * 2 ^ 56 +
      [0x50, 1, 0, 0, 0, 0, 0, 0, 2, 99].getD 2 0 * 2 ^ 48 +
      [0x50, 1, 0, 0, 0, 0, 0, 0, 2, 99].getD 3 0 * 2 ^ 40 +
      [0x50, 1, 0, 0, 0, 0, 0, 0, 2, 99].getD 4 0 * 2 ^ 32 +
      [0x50, 1, 0, 0, 0, 0, 0, 0, 2, 99].getD 5 0 * 2 ^ 24 +
      [0x50, 1, 0, 0, 0, 0, 0, 0, 2, 99].getD 6 0 * 2 ^ 16 +
      [0x50, 1, 0, 0, 0, 0, 0, 0, 2, 99].getD 7 0 * 2 ^ 8 +
      [0x50, 1, 0, 0, 0, 0, 0, 0, 2, 99].getD 8 0 :=
  (c4_report_decoder_contract [0x50, 1, 0, 0, 0, 0, 0, 0, 2, 99]).2.1
    72057594037927938 (by decide)

/-- C5 counterexample: decoding `[0x50, 0xFF, 0, 0, 0, 0, 0, 0, 0]` yields
`0xFF00000000000000`, which is not the single-bit value `2 ^ 63`: besides
bit position 63 it also has, e.g., bit position 56 (layout index 7) set. -/
theorem c5_counterexample :
    HidMachine._parse [0x50, 0xFF, 0, 0, 0, 0, 0, 0, 0] =
      some 0xFF00000000000000
    ∧ (0xFF00000000000000 : Nat) ≠ 2 ^ 63
    ∧ Nat.testBit 0xFF00000000000000 56 = true := by
  refine ⟨by decide, by decide, by decide⟩

/-- C5 (amended): decoding the 9-byte report `[0x50, 0xFF, 0, 0, 0, 0, 0,
0, 0]` yields the bitmap `0xFF00000000000000`, in which exactly the bits
at layout indices 0 through 7 (bit positions 63 down to 56) are set. -/
theorem c5_decode_ff_report :
    HidMachine._parse [0x50, 0xFF, 0, 0, 0, 0, 0, 0, 0] =
      some 0xFF00000000000000
    ∧ (∀ i < 64, Nat.testBit 0xFF00000000000000 (63 - i) = decide (i < 8)) := by
  refine ⟨by decide, by decide⟩

/-- C5 witness: the amended claim evaluated at layout index 0. -/
theorem c5_decode_ff_report_witness :
    Nat.testBit 0xFF00000000000000 (63 - 0) = decide ((0 : Nat) < 8) :=
  c5_decode_ff_report.2 0 (by decide)

/-- C10: `_parse` depends only on the first 9 bytes of an accepted report:
two reports longer than 8 bytes, starting with `0x50` and agreeing on
bytes 0 through 8 decode to the same bitmap, whatever their tails are. -/
theorem c10_decode_depends_on_first_nine (r1 r2 : List Nat)
    (h1 : 8 < r1.length) (h2 : 8 < r2.length)
    (hp : r1.head? = some 0x50)
    (hagree : r1.take 9 = r2.take 9) :
    HidMachine._parse r1 = HidMachine._parse r2
    ∧ (HidMachine._parse r1).isSome = true := by
  rcases r1 with _ | ⟨a, t1⟩
  · simp at h1
  rcases r2 with _ | ⟨b, t2⟩
  · simp at h2
  simp only [List.take_succ_cons, List.cons.injEq] at hagree
  obtain ⟨hab, htake⟩ := hagree
  subst hab
  have hb : (a :: t2).head? = some 0x50 := hp
  have htake8 : t1.take 8 = t2.take 8 := htake
  constructor
  · rw [HidMachine._parse, HidMachine._parse]
    rw [if_pos ⟨h1, hp⟩, if_pos ⟨h2, hb⟩]
    simp [show SIMPLE_REPORT_LEN = 8 from rfl, htake8]
  · rw [HidMachine._parse, if_pos ⟨h1, hp⟩]
    rfl

/-- C10 witness: two concrete reports agreeing on the first 9 bytes but
with different tails decode identically. -/
theorem c10_decode_depends_on_first_nine_witness :
    HidMachine._parse [0x50, 0, 0, 0, 0, 0, 0, 0, 1, 5] =
      HidMachine._parse [0x50, 0, 0, 0, 0, 0, 0, 0, 1, 7, 9] :=
  (c10_decode_depends_on_first_nine
    [0x50, 0, 0, 0, 0, 0, 0, 0, 1, 5] [0x50, 0, 0, 0, 0, 0, 0, 0, 1, 7, 9]
    (by decide) (by decide) (by decide) (by decide)).1

/-- C8: whenever the translator maps the computed key-name list to nothing
(`None` or an empty action list, both falsy under Python's
`if steno_actions:`), `send` forwards no output; and the key-name list of
the zero bitmap is empty, so emitting bitmap 0 with any translator that
yields nothing on the empty key set produces no output. -/
theorem c8_empty_chord_suppressed :
    (∀ (A : Type) (keys_to_actions : List String → Option (List A))
        (keystate : Nat),
        (keys_to_actions (HidMachine.sendKeys keystate) = none ∨
         keys_to_actions (HidMachine.sendKeys keystate) = some []) →
        HidMachine.send keys_to_actions keystate = none)
    ∧ HidMachine.sendKeys 0 = [] := by
  constructor
  · intro A keys_to_actions keystate h
    rcases h with h | h <;> simp [HidMachine.send, h]
  · decide

/-- C8 witness: a translator yielding nothing suppresses the output of
bitmap 0. -/
theorem c8_empty_chord_suppressed_witness :
    HidMachine.send (fun _ => (none : Option (List Nat))) 0 = none :=
  c8_empty_chord_suppressed.1 Nat (fun _ => none) 0 (Or.inl rfl)

/-- C9: the key chart has exactly 64 names, one per bitmap position; for
every chart index the shift amount `63 - i` stays below 64; and every key
name that `send` computes for any keystate comes from the chart, so the
lookup never leaves its range. -/
theorem c9_key_chart_total :
    STENO_KEY_CHART.length = 64
    ∧ (∀ i < STENO_KEY_CHART.length, 63 - i < 64)
    ∧ (∀ keystate : Nat, ∀ key ∈ HidMachine.sendKeys keystate,
        key ∈ STENO_KEY_CHART) := by
  refine ⟨by decide, by omega, ?_⟩
  intro keystate key hkey
  have hsub : HidMachine.sendKeys keystate ⊆ STENO_KEY_CHART.enum.map Prod.snd :=
    List.map_subset Prod.snd (fun x hx => (List.mem_filter.mp hx).1)
  have hmem := hsub hkey
  rwa [List.enum_map_snd] at hmem

/-- C9 witness: the chart bounds evaluated at index 5, and the key names
of the keystate with only layout index 0 pressed all come from the
chart. -/
theorem c9_key_chart_total_witness :
    63 - 5 < 64 ∧ "S-" ∈ STENO_KEY_CHART :=
  ⟨c9_key_chart_total.2.1 5 (by decide),
   c9_key_chart_total.2.2 (2 ^ 63) "S-" (by decide)⟩

/-- C1 counterexample: with `A = 0` and `B = 1`, feeding `A, 0, B, 0`
under the accumulate policy makes three calls to `send` (each report
whose bitmap is 0 emits the accumulated keystate, including a zero one),
not exactly two. -/
theorem c1_counterexample :
    (runBitmaps defaultParams initState [0, 0, 1, 0]).2 = [0, 0, 1]
    ∧ ¬ (runBitmaps defaultParams initState [0, 0, 1, 0]).2.length = 2 := by
  refine ⟨by decide, by decide⟩

/-- C1 (amended): with `firstUpChordSend` false, each report ORs its
bitmap into `keystate`; a zero bitmap emits the accumulated `keystate`,
records it in `last_sent` and resets `keystate`; and for every pair of
NONZERO bitmaps `A`, `B`, feeding `A, 0, B, 0` emits exactly the two
chords `A` then `B`, while `{bit0}, {bit0,bit1}, 0` emits exactly
`{bit0,bit1}`. -/
theorem c1_accumulate_until_clear (p : MachineParams)
    (hp : p.first_up_chord_send = false) :
    (∀ s b, b ≠ 0 →
        stepBitmap p s b =
          ({ s with current := b, repeat_timer := 0,
                    keystate := s.keystate ||| b }, []))
    ∧ (∀ s, stepBitmap p s 0 =
        ({ s with current := 0, repeat_timer := 0, keystate := 0,
                  last_sent := s.keystate }, [s.keystate]))
    ∧ (∀ A B, A ≠ 0 → B ≠ 0 →
        (runBitmaps p initState [A, 0, B, 0]).2 = [A, B])
    ∧ (runBitmaps p initState [1, 3, 0]).2 = [3] := by
  have hstep0 : ∀ s : MachineState, stepBitmap p s 0 =
      ({ s with current := 0, repeat_timer := 0, keystate := 0,
                last_sent := s.keystate }, [s.keystate]) := by
    intro s
    simp [stepBitmap, hp]
  have hstepNZ : ∀ (s : MachineState) (b : Nat), b ≠ 0 →
      stepBitmap p s b =
        ({ s with current := b, repeat_timer := 0,
                  keystate := s.keystate ||| b }, []) := by
    intro s b hb
    simp [stepBitmap, hp, hb]
  refine ⟨hstepNZ, hstep0, ?_, ?_⟩
  · intro A B hA hB
    simp [runBitmaps, hstep0, hstepNZ _ _ hA, hstepNZ _ _ hB, initState]
  · simp [runBitmaps, hstep0, hstepNZ _ 1 (by decide), hstepNZ _ 3 (by decide),
      initState]

/-- C1 witness: the amended accumulate-policy claim at `A = 5`, `B = 9`. -/
theorem c1_accumulate_until_clear_witness :
    (runBitmaps defaultParams initState [5, 0, 9, 0]).2 = [5, 9] :=
  (c1_accumulate_until_clear defaultParams rfl).2.2.1 5 9
    (by decide) (by decide)

/-- C7: a report that `_parse` rejects is an identity step — state
unchanged, nothing sent, no error — and inserting such a report anywhere
in an event sequence leaves the emitted-chord sequence unchanged. -/
theorem c7_malformed_report_identity :
    (∀ p s bytes, HidMachine._parse bytes = none →
        step p s (Event.report bytes) = (s, []))
    ∧ (∀ p s evs1 evs2 bytes, HidMachine._parse bytes = none →
        (runEvents p s (evs1 ++ Event.report bytes :: evs2)).2 =
          (runEvents p s (evs1 ++ evs2)).2) := by
  have hid : ∀ p s bytes, HidMachine._parse bytes = none →
      step p s (Event.report bytes) = (s, []) := by
    intro p s bytes h
    simp [step, h]
  refine ⟨hid, ?_⟩
  intro p s evs1 evs2 bytes h
  rw [runEvents_append, runEvents_append]
  have hmid : runEvents p (runEvents p s evs1).1 (Event.report bytes :: evs2) =
      ((runEvents p (runEvents p s evs1).1 evs2).1,
       [] ++ (runEvents p (runEvents p s evs1).1 evs2).2) := by
    rw [runEvents]
    rw [hid p (runEvents p s evs1).1 bytes h]
  rw [hmid]
  simp

/-- C7 witness: a concrete malformed report (the empty byte list) between
two valid reports does not change the emissions. -/
theorem c7_malformed_report_identity_witness :
    (runEvents defaultParams initState
      [Event.report [0x50, 1, 0, 0, 0, 0, 0, 0, 0],
       Event.report [],
       Event.report [0x50, 0, 0, 0, 0, 0, 0, 0, 0]]).2 =
    (runEvents defaultParams initState
      [Event.report [0x50, 1, 0, 0, 0, 0, 0, 0, 0],
       Event.report [0x50, 0, 0, 0, 0, 0, 0, 0, 0]]).2 :=
  c7_malformed_report_identity.2 defaultParams initState
    [Event.report [0x50, 1, 0, 0, 0, 0, 0, 0, 0]]
    [Event.report [0x50, 0, 0, 0, 0, 0, 0, 0, 0]]
    [] (by decide)

/-- C2: under the first-up policy, from the reset state, the reports
`{bit0,bit1}` then `{bit1}` send exactly the one chord `{bit0,bit1}` and
leave `last_sent = {bit0,bit1}`, `sent_first_up = true`; any report that
presses no new key (`current AND NOT keystate = 0`) while
`sent_first_up` is true sends nothing and keeps `sent_first_up` true; and
any number of timeouts from the reached state send nothing. -/
theorem c2_first_up_once (p : MachineParams)
    (hp : p.first_up_chord_send = true) :
    (runBitmaps p initState [3, 2]).2 = [3]
    ∧ (runBitmaps p initState [3, 2]).1 =
        { keystate := 2, current := 2, last_sent := 3, repeat_timer := 0,
          sent_first_up := true }
    ∧ (∀ s b, s.sent_first_up = true → andNot b s.keystate = 0 →
        (stepBitmap p s b).2 = [] ∧
        (stepBitmap p s b).1.sent_first_up = true)
    ∧ (∀ n, (runEvents p
        { keystate := 2, current := 2, last_sent := 3, repeat_timer := 0,
          sent_first_up := true }
        (List.replicate n Event.timeout)).2 = []) := by
  have hrun := runBitmaps_congr p
    { first_up_chord_send := true, double_tap_repeat := false,
      repeat_delay_ms := 200, repeat_interval_ms := 50 }
    (by rw [hp]) initState [3, 2]
  refine ⟨by rw [hrun]; decide, by rw [hrun]; decide, ?_, ?_⟩
  · intro s b h1 h2
    constructor <;> simp [stepBitmap, hp, h1, h2]
  · intro n
    rw [runEvents_timeout_of_ne p
      { keystate := 2, current := 2, last_sent := 3, repeat_timer := 0,
        sent_first_up := true }
      (by decide) n]

/-- C2 witness: the first-up once-per-release behavior at the default
numeric options. -/
theorem c2_first_up_once_witness :
    (runBitmaps
      { first_up_chord_send := true, double_tap_repeat := false,
        repeat_delay_ms := 200, repeat_interval_ms := 50 }
      initState [3, 2]).2 = [3] :=
  (c2_first_up_once
    { first_up_chord_send := true, double_tap_repeat := false,
      repeat_delay_ms := 200, repeat_interval_ms := 50 } rfl).1

/-- C6: under the first-up policy, any report with a newly pressed bit
(`current AND NOT keystate ≠ 0`) leaves `sent_first_up = false`, and
after the once-per-release sequence `{bit0,bit1}`, `{bit1}`, feeding
`{bit1,bit2}` then `{bit2}` sends a second chord `{bit1,bit2}`. -/
theorem c6_first_up_rearm (p : MachineParams)
    (hp : p.first_up_chord_send = true) :
    (∀ s b, andNot b s.keystate ≠ 0 →
        (stepBitmap p s b).1.sent_first_up = false)
    ∧ (runBitmaps p initState [3, 2, 6, 4]).2 = [3, 6] := by
  constructor
  · intro s b h
    by_cases hc : andNot s.keystate b ≠ 0 ∧ s.sent_first_up = false <;>
      simp [stepBitmap, hp, hc, h]
  · rw [runBitmaps_congr p
      { first_up_chord_send := true, double_tap_repeat := false,
        repeat_delay_ms := 200, repeat_interval_ms := 50 }
      (by rw [hp]) initState [3, 2, 6, 4]]
    decide

/-- C6 witness: the re-arm sequence at the default numeric options. -/
theorem c6_first_up_rearm_witness :
    (runBitmaps
      { first_up_chord_send := true, double_tap_repeat := false,
        repeat_delay_ms := 200, repeat_interval_ms := 50 }
      initState [3, 2, 6, 4]).2 = [3, 6] :=
  (c6_first_up_rearm
    { first_up_chord_send := true, double_tap_repeat := false,
      repeat_delay_ms := 200, repeat_interval_ms := 50 } rfl).2

/-- C3: on a timeout, the repeat timer changes only when `doubleTapRepeat`
is on, `current = last_sent` and `current ≠ 0`; while it is below the
delay it advances by exactly the interval and nothing is sent; once it
has reached the delay the held chord is sent again with
`sent_first_up := true`; when candidacy fails the state is untouched;
every parsed report resets the timer to 0; and with delay 100 and
interval 50, a held chord `C` is re-sent from the third consecutive
timeout on (cumulative idle 150ms ≥ 100ms) and not while the cumulative
idle time is below 100ms. -/
theorem c3_repeat_timing :
    (∀ p (s : MachineState),
        (stepTimeout p s).1.repeat_timer ≠ s.repeat_timer →
        p.double_tap_repeat = true ∧ s.current = s.last_sent ∧ s.current ≠ 0)
    ∧ (∀ p (s : MachineState), p.double_tap_repeat = true → s.current ≠ 0 →
        s.current = s.last_sent → s.repeat_timer < p.repeat_delay_ms →
        stepTimeout p s =
          ({ s with repeat_timer := s.repeat_timer + p.repeat_interval_ms },
           []))
    ∧ (∀ p (s : MachineState), p.double_tap_repeat = true → s.current ≠ 0 →
        s.current = s.last_sent → p.repeat_delay_ms ≤ s.repeat_timer →
        stepTimeout p s = ({ s with sent_first_up := true }, [s.current]))
    ∧ (∀ p (s : MachineState),
        ¬ (p.double_tap_repeat = true ∧ s.current ≠ 0 ∧
           s.current = s.last_sent) →
        stepTimeout p s = (s, []))
    ∧ (∀ p (s : MachineState) b, (stepBitmap p s b).1.repeat_timer = 0)
    ∧ (∀ C : Nat, C ≠ 0 → ∀ n,
        (runEvents repeatTestParams (heldState C)
          (List.replicate n Event.timeout)).2 = List.replicate (n - 2) C) := by
  refine ⟨?_, ?_, ?_, ?_, ?_, ?_⟩
  · intro p s hne
    rw [stepTimeout] at hne
    split at hne
    next hcond => exact ⟨hcond.1, hcond.2.2, hcond.2.1⟩
    next => simp at hne
  · intro p s hdt h0 heq hlt
    rw [stepTimeout, if_pos ⟨hdt, h0, heq⟩, if_pos hlt]
  · intro p s hdt h0 heq hge
    rw [stepTimeout, if_pos ⟨hdt, h0, heq⟩, if_neg (Nat.not_lt.mpr hge)]
  · intro p s hne
    rw [stepTimeout, if_neg hne]
  · intro p s b
    simp only [stepBitmap]
    split_ifs <;> rfl
  · intro C hC n
    have e1 : stepTimeout repeatTestParams (heldState C) =
        ({ heldState C with repeat_timer := 50 }, []) := by
      simp [stepTimeout, repeatTestParams, heldState, hC]
    match n with
    | 0 => simp [runEvents]
    | 1 => simp [List.replicate_succ, runEvents, step, e1]
    | (m + 2) =>
      have e2 : stepTimeout repeatTestParams
            { heldState C with repeat_timer := 50 } =
          ({ heldState C with repeat_timer := 100 }, []) := by
        simp [stepTimeout, repeatTestParams, heldState, hC]
      have e3 := runEvents_repeat_steady
        { heldState C with repeat_timer := 100 } m hC rfl
        (by simp [repeatTestParams, heldState])
      rw [show m + 2 - 2 = m from by omega]
      simp only [List.replicate_succ, runEvents, step, e1, e2]
      simpa [heldState] using e3

/-- C3 witness: with delay 100 and interval 50, five consecutive timeouts
holding the chord 7 re-send it exactly at the third, fourth and fifth. -/
theorem c3_repeat_timing_witness :
    (runEvents repeatTestParams (heldState 7)
      (List.replicate 5 Event.timeout)).2 = List.replicate (5 - 2) 7 :=
  c3_repeat_timing.2.2.2.2.2 7 (by decide) 5

end PloverHid
